import Mathlib

/-!
# Verification of the mpipe-plus pipeline core

A shallow embedding of the mpipe-plus multiprocessing pipeline toolkit
(`src/mpipe_plus/` plus the tube flavors in `src/src/`).  Python is
dynamically typed, so a stage's payloads live in a single value universe
`V`; the `isinstance` dispatch in the source becomes a match on a tagged
union of the runtime classes the source actually tests for
(`StopIteration`, `WorkException`, `Exception`, `BaseException`).

Tubes are FIFO lists (head = next item to `get`, `put` appends at the
tail).  Every item on a tube is the envelope `((task_index, payload),
relay_count)` exactly as in the source.
-/

set_option autoImplicit false

namespace MPipe

/-- An arbitrary Python exception object: an identity plus the identity of
its `__traceback__`. -/
structure PyExc where
  excId : Nat
  tb : Nat
  deriving DecidableEq, Repr

/-- `work_exception.WorkException`: constructed as
`WorkException(orig_exc, stage, work_item)`, it stores
`self.tb = orig_exc.__traceback__`, `self.orig_exc = orig_exc`,
`self.work_item = work_item`, `self.stage = str(stage)`. -/
structure WExc (V : Type) where
  origExc : PyExc
  tb : Nat
  stage : String
  workItem : Option V
  deriving DecidableEq, Repr

/-- The `WorkException.__init__` constructor from `work_exception.py`. -/
def mkWorkException {V : Type} (origExc : PyExc) (stage : String)
    (workItem : Option V) : WExc V :=
  { origExc := origExc, tb := origExc.tb, stage := stage, workItem := workItem }

/-- `WorkException.re_raise` executes `raise self.with_traceback(self.tb)`:
it raises the `WorkException` object itself, attached to the stored
traceback.  We return the raised exception together with the traceback it
carries. -/
def reRaise {V : Type} (w : WExc V) : WExc V × Nat :=
  (w, w.tb)

/-- A Python runtime value as classified by the `isinstance` tests in
`Worker.run` and `Stage.get`: an ordinary (non-exception) value, a
`StopIteration`, a `WorkException`, some other `Exception`, or a
`BaseException` that is not an `Exception` (e.g. `KeyboardInterrupt`). -/
inductive PyVal (V : Type) where
  | val (v : V)
  | stopIter
  | workExc (w : WExc V)
  | exc (e : PyExc)
  | baseExc (e : PyExc)
  deriving DecidableEq, Repr

/-- A tube item: the envelope `((task_index, payload), relay_count)`.
Task indices are integers because the worker uses `-1` on error paths. -/
abbrev Item (V : Type) := (Int × PyVal V) × Nat

/-- A tube modelled by its FIFO contents: head is the next item `get`
returns, `put` appends at the tail. -/
abbrev TubeCts (V : Type) := List (Item V)

/-- `Worker.putResult(task_index, result)` puts `((task_index, result), 0)`
on every output tube. -/
def putResultAll {V : Type} (outs : List (TubeCts V)) (e : Int × PyVal V) :
    List (TubeCts V) :=
  outs.map (fun t => t ++ [(e, 0)])

/-- What a single `Worker.run` loop iteration does after fetching an item:
the `putResult` calls it makes (each goes to every output tube), the items
it puts back on the stage's own input tube, whether it called
`close_pipes` (closing the input tube and all output tubes), and how the
iteration ends. -/
inductive Ctl (V : Type) where
  | cont
  | exit
  | raised (e : PyVal V)
  deriving DecidableEq, Repr

structure StepEff (V : Type) where
  emits : List (Int × PyVal V)
  reput : List (Item V)
  closed : Bool
  ctl : Ctl V
  deriving DecidableEq, Repr

/-- The dispatch section of `Worker.run` (`Worker.py`), one loop iteration
on a fetched envelope `((task_index, task), count)`:
* `StopIteration`: `count += 1`; if `count == num_workers` then
  `putResult(task_index, task)` else re-`put` `((task_index, task), count)`
  on the input tube; `break`.
* `WorkException`: `putResult(task_index, task)`, `close_pipes()`, `break`.
* other `BaseException`: `put ((task_index, task), count+1)` back on the
  input tube and `raise task`.
* otherwise run `doTask(task)`; on exception `e`,
  `putResult(task_index, WorkException(e, self, task))`, `close_pipes()`,
  `break`; on success, if `not disable_result and result is not None`,
  `putResult(task_index, result)`; continue the loop.
`doTask` is the user transform: it returns `.error e` when it raises,
`.ok none` when it returns `None`, `.ok (some r)` otherwise. -/
def dispatch {V : Type} (numWorkers : Nat) (disableResult : Bool)
    (workerName : String) (doTask : V → Except PyExc (Option V))
    (item : Item V) : StepEff V :=
  let taskIndex := item.1.1
  let task := item.1.2
  let count := item.2
  match task with
  | .stopIter =>
      let count := count + 1
      if count = numWorkers then
        { emits := [(taskIndex, .stopIter)], reput := [], closed := false,
          ctl := .exit }
      else
        { emits := [], reput := [((taskIndex, .stopIter), count)],
          closed := false, ctl := .exit }
  | .workExc w =>
      { emits := [(taskIndex, .workExc w)], reput := [], closed := true,
        ctl := .exit }
  | .exc e =>
      { emits := [], reput := [((taskIndex, .exc e), count + 1)],
        closed := false, ctl := .raised (.exc e) }
  | .baseExc e =>
      { emits := [], reput := [((taskIndex, .baseExc e), count + 1)],
        closed := false, ctl := .raised (.baseExc e) }
  | .val v =>
      match doTask v with
      | .error e =>
          { emits := [(taskIndex,
              .workExc (mkWorkException e workerName (some v)))],
            reput := [], closed := true, ctl := .exit }
      | .ok none =>
          { emits := [], reput := [], closed := false, ctl := .cont }
      | .ok (some r) =>
          if disableResult then
            { emits := [], reput := [], closed := false, ctl := .cont }
          else
            { emits := [(taskIndex, .val r)], reput := [], closed := false,
              ctl := .cont }

/-- In `Worker.run`'s outer `try`, a tube-level exception in
`self._tube_task_input.get()` is normalized to the envelope
`((-1, e), 0)` before dispatch. -/
def normalizeFetch {V : Type} (fetch : Except (PyVal V) (Item V)) : Item V :=
  match fetch with
  | .ok it => it
  | .error e => ((-1, e), 0)

/-- Apply a step's `putResult` calls to a list of output tubes. -/
def applyEmits {V : Type} (emits : List (Int × PyVal V))
    (outs : List (TubeCts V)) : List (TubeCts V) :=
  emits.foldl putResultAll outs

/-- The stop-relay inside one stage: the single `(StopIteration, count)`
token is consumed by one worker at a time; a worker that does not
terminate the relay re-`put`s the token with the incremented count and the
next sibling picks it up.  `fuel` bounds the number of workers that can
take part; each returned element is what one worker did. -/
def stopRelayTrace {V : Type} (numWorkers : Nat) (disableResult : Bool)
    (workerName : String) (doTask : V → Except PyExc (Option V))
    (taskIndex : Int) : Nat → Nat → List (StepEff V)
  | _, 0 => []
  | count, fuel + 1 =>
      let s := dispatch numWorkers disableResult workerName doTask
        ((taskIndex, .stopIter), count)
      match s.reput with
      | [] => [s]
      | it :: _ =>
          s :: stopRelayTrace numWorkers disableResult workerName doTask
            taskIndex it.2 fuel

/-- All `putResult` arguments issued across a trace of worker steps. -/
def allEmits {V : Type} (tr : List (StepEff V)) : List (Int × PyVal V) :=
  (tr.map StepEff.emits).flatten

/-! ## `Pipeline.put` (`Pipeline.py`)

`Pipeline.__init__` sets `task_index = 0`.  `put(task)` runs, under the
mutex, `self._input_stage.put((self.task_index, task))` then
`self.task_index += 1`; `Stage.put(task)` runs
`self._input_tube.put((task, 0))`.  The mutex serializes concurrent
callers, so the observable behaviour is the sequential composition
modelled here. -/

structure PutState (V : Type) where
  taskIndex : Nat
  rootTube : List ((Nat × V) × Nat)
  deriving DecidableEq, Repr

def putInit (V : Type) : PutState V := { taskIndex := 0, rootTube := [] }

def pipelinePut {V : Type} (p : PutState V) (task : V) : PutState V :=
  { taskIndex := p.taskIndex + 1,
    rootTube := p.rootTube ++ [((p.taskIndex, task), 0)] }

def putMany {V : Type} (p : PutState V) (tasks : List V) : PutState V :=
  tasks.foldl pipelinePut p

/-! ## `Pipeline.results_ordered` (`Pipeline.py`)

```
if len(self._output_stages) != 1: raise ValueError(...)
current = 0
cache = {}
while result := self.get():
    task_index, res = result
    cache[task_index] = res
    while current in cache:
        yield cache[current]
        current += 1
```

The `dict` `cache` is modelled by an association list with shadowing:
assignment conses the new binding in front, and `List.lookup` returns the
most recent binding, so lookup agrees with dict semantics.  The stream of
`self.get()` results up to the terminating end-of-stream `None` is the
input list `arrivals`. -/

/-- `cache[task_index] = res` — dict assignment, as lookup-shadowing. -/
def dictInsert {V : Type} (cache : List (Nat × V)) (k : Nat) (v : V) :
    List (Nat × V) :=
  (k, v) :: cache

/-- A filter-based measure: the number of cache entries at keys `≥ c`. -/
def drainMeasure {V : Type} (cache : List (Nat × V)) (c : Nat) : Nat :=
  (cache.filter (fun p => decide (c ≤ p.1))).length

theorem drainMeasure_mono {V : Type} (cache : List (Nat × V)) (c : Nat) :
    drainMeasure cache (c + 1) ≤ drainMeasure cache c := by
  induction cache with
  | nil => simp [drainMeasure]
  | cons p rest ih =>
      simp only [drainMeasure, List.filter] at *
      by_cases h1 : c + 1 ≤ p.1
      · have h0 : c ≤ p.1 := Nat.le_of_succ_le h1
        simp [h1, h0]
        exact ih
      · by_cases h0 : c ≤ p.1 <;> simp [h1, h0] <;> omega

theorem drainMeasure_lookup_lt {V : Type} (cache : List (Nat × V)) (c : Nat)
    (v : V) (h : cache.lookup c = some v) :
    drainMeasure cache (c + 1) < drainMeasure cache c := by
  induction cache with
  | nil => simp [List.lookup] at h
  | cons p rest ih =>
      rcases p with ⟨k, w⟩
      by_cases hk : c = k
      · subst hk
        have hle : decide (c ≤ c) = true := by simp
        have hnle : decide (c + 1 ≤ c) = false := by simp
        simp only [drainMeasure, List.filter, hle, hnle, List.length_cons]
        have := drainMeasure_mono (V := V) rest c
        simp only [drainMeasure] at this
        omega
      · have hbeq : (c == k) = false := by
          simp [hk]
        simp only [List.lookup, hbeq] at h
        have hrest := ih h
        simp only [drainMeasure, List.filter] at hrest ⊢
        by_cases h1 : c + 1 ≤ k
        · have h0 : c ≤ k := Nat.le_of_succ_le h1
          simp [h1, h0]
          omega
        · by_cases h0 : c ≤ k
          · have : k = c := by omega
            exact absurd this.symm hk
          · simp [h1, h0]
            omega

/-- The inner `while current in cache:` loop — emit `cache[current]` and
increment `current` as long as `current` is a key of the cache.  Returns
the emitted values together with the final value of `current`.  It
terminates because the cache is finite: each iteration consumes one key at
or above `current`. -/
def drain {V : Type} (cache : List (Nat × V)) (current : Nat) :
    List V × Nat :=
  match h : cache.lookup current with
  | some v =>
      let r := drain cache (current + 1)
      (v :: r.1, r.2)
  | none => ([], current)
termination_by drainMeasure cache current
decreasing_by
  exact drainMeasure_lookup_lt cache current _ h

/-- The `while result := self.get():` loop of `results_ordered`, over the
list of `(task_index, res)` pairs the pipeline delivers before
end-of-stream. -/
def roGo {V : Type} : List (Nat × V) → Nat → List (Nat × V) → List V
  | [], _, _ => []
  | (i, v) :: rest, current, cache =>
      let cache := dictInsert cache i v
      let r := drain cache current
      r.1 ++ roGo rest r.2 cache

/-- `Pipeline.results_ordered` as a function of the delivered results:
starts with `current = 0` and an empty cache. -/
def resultsOrdered {V : Type} (arrivals : List (Nat × V)) : List V :=
  roGo arrivals 0 []

/-! ## `Stage.get` and `Pipeline.get` (`Stage.py`, `Pipeline.py`)

```
# Stage.get
for out in list(self.available_output_tubes):
    task_index, result = out.get(timeout)[0]
    if isinstance(result, StopIteration):
        self.available_output_tubes.remove(out); continue
    if isinstance(result, WorkException):
        self.workers_pool.terminate(); result.re_raise()
    if isinstance(result, Exception):
        self.workers_pool.terminate(); raise result
    return task_index, result
self.workers_pool.join()
raise StopIteration()

# Pipeline.get
for stage in self._output_stages:
    try: return stage.get(timeout)
    except StopIteration: pass
return None
```

Note `isinstance(result, Exception)` is false for `BaseException`s such as
`KeyboardInterrupt`, which therefore reach the final `return`. -/

structure StageSt (V : Type) where
  availableTubes : List (TubeCts V)
  poolTerminated : Bool
  poolJoined : Bool
  deriving DecidableEq, Repr

inductive GetRes (V : Type) where
  /-- normal `return task_index, result` -/
  | got (i : Int) (v : PyVal V)
  /-- `raise StopIteration()` after all available tubes yielded Stop -/
  | stopIteration
  /-- `result.re_raise()`: the raised `WorkException` and its traceback -/
  | raisedWork (w : WExc V) (tb : Nat)
  /-- `raise result` for a plain `Exception` payload -/
  | raisedExc (e : PyExc)
  /-- `out.get(timeout)` found the tube empty (blocks / times out) -/
  | blocked
  deriving DecidableEq, Repr

/-- The `for out in list(...)` loop of `Stage.get`: walk the snapshot of
available tubes, accumulating in `kept` the tubes already visited that
stay available.  Returns the new available list, whether
`workers_pool.terminate()` ran, whether `workers_pool.join()` ran, and the
outcome. -/
def stageGetGo {V : Type} :
    List (TubeCts V) → List (TubeCts V) →
    List (TubeCts V) × Bool × Bool × GetRes V
  | [], kept => (kept, false, true, .stopIteration)
  | tube :: rest, kept =>
      match tube with
      | [] => (kept ++ [] :: rest, false, false, .blocked)
      | ((i, res), _c) :: tail =>
          match res with
          | .stopIter => stageGetGo rest kept
          | .workExc w =>
              (kept ++ tail :: rest, true, false,
                .raisedWork (reRaise w).1 (reRaise w).2)
          | .exc e => (kept ++ tail :: rest, true, false, .raisedExc e)
          | .baseExc e =>
              (kept ++ tail :: rest, false, false, .got i (.baseExc e))
          | .val v => (kept ++ tail :: rest, false, false, .got i (.val v))

/-- One `Stage.get` call on a stage state. -/
def stageGet {V : Type} (s : StageSt V) : StageSt V × GetRes V :=
  let r := stageGetGo s.availableTubes []
  ({ availableTubes := r.1,
     poolTerminated := s.poolTerminated || r.2.1,
     poolJoined := s.poolJoined || r.2.2.1 }, r.2.2.2)

/-- The pipeline state seen by `Pipeline.get`: the root stage's input tube
(which `get` never touches) and the leaf stages' states. -/
structure PipeSt (V : Type) where
  rootTube : TubeCts V
  stages : List (StageSt V)
  deriving DecidableEq, Repr

inductive PGet (V : Type) where
  /-- `return task_index, result` from some leaf stage -/
  | got (i : Int) (v : PyVal V)
  /-- the trailing `return None` -/
  | none
  | raisedWork (w : WExc V) (tb : Nat)
  | raisedExc (e : PyExc)
  | blocked
  deriving DecidableEq, Repr

/-- The `for stage in self._output_stages` loop of `Pipeline.get`:
`StopIteration` from a stage is swallowed and the next stage tried; any
other outcome ends the loop. -/
def pipelineGetGo {V : Type} :
    List (StageSt V) → List (StageSt V) → List (StageSt V) × PGet V
  | [], done => (done, .none)
  | s :: rest, done =>
      let r := stageGet s
      match r.2 with
      | .stopIteration => pipelineGetGo rest (done ++ [r.1])
      | .got i v => (done ++ r.1 :: rest, .got i v)
      | .raisedWork w tb => (done ++ r.1 :: rest, .raisedWork w tb)
      | .raisedExc e => (done ++ r.1 :: rest, .raisedExc e)
      | .blocked => (done ++ r.1 :: rest, .blocked)

/-- One `Pipeline.get` call.  The root tube is returned unchanged because
no statement of `Pipeline.get` or `Stage.get` writes to it. -/
def pipelineGet {V : Type} (p : PipeSt V) : PipeSt V × PGet V :=
  let r := pipelineGetGo p.stages []
  ({ rootTube := p.rootTube, stages := r.1 }, r.2)

/-! ## Calling `results_ordered` (`Pipeline.py`)

`results_ordered` contains `yield`, so it is a Python generator function:
calling it only creates a generator object and runs none of its body; the
body — starting with the `len(self._output_stages) != 1` check — first
runs when the generator is first iterated. -/

inductive OrderedCallEvent where
  | returnsGenerator
  | raisesValueError
  deriving DecidableEq, Repr

/-- What the call expression `pipeline.results_ordered()` itself does, as
a function of the number of output (leaf) stages: per Python generator
semantics it always returns a fresh generator object without executing the
function body. -/
def resultsOrderedCallEvent (_numLeaves : Nat) : OrderedCallEvent :=
  .returnsGenerator

/-- What the first iteration of the returned generator does: run the body
from the top, so `if len(self._output_stages) != 1: raise ValueError(...)`
executes before anything is yielded. -/
def resultsOrderedFirstNext (numLeaves : Nat) : Except String Unit :=
  if numLeaves ≠ 1 then
    .error "Pipeline must have only one output stage."
  else
    .ok ()

/-! ## Tube flavors (`src/src/TubeQ.py`, `src/src/TubeP.py`) -/

inductive PyRaise where
  /-- `TimeoutError` -/
  | timeoutError
  /-- `multiprocessing.TimeoutError` -/
  | mpTimeoutError
  /-- `AttributeError` from evaluating a nonexistent attribute -/
  | attributeError
  deriving DecidableEq, Repr

/-- The outcome of a `get(timeout)` on a tube whose contents stay as
given for the duration of the call: the next item, blocking forever (no
timeout was supplied), or a raised exception. -/
inductive TubeGetRes (I : Type) where
  | item (x : I)
  | blocks
  | raises (e : PyRaise)
  deriving DecidableEq, Repr

/-- `TubeQ.get(timeout)`:
```
try: return self._queue.get(True, timeout)
except multiprocessing.Queue.Empty: raise TimeoutError
```
On an empty queue with a timeout, the underlying `Queue.get` raises
`queue.Empty` when the timeout elapses; Python then evaluates the handler
clause `multiprocessing.Queue.Empty`, but `multiprocessing.Queue` is the
context's factory method and has no attribute `Empty` (the class lives in
the stdlib `queue` module), so the clause evaluation raises
`AttributeError`, which replaces the `Empty` and propagates.  The handler
body `raise TimeoutError` is unreachable. -/
def tubeQGet {I : Type} (contents : List I) (timeoutGiven : Bool) :
    TubeGetRes I :=
  match contents with
  | x :: _ => .item x
  | [] => if timeoutGiven then .raises .attributeError else .blocks

/-- `TubeP.get(timeout)`:
```
if self._conn1.poll(timeout): return self._conn1.recv()
else: raise multiprocessing.TimeoutError
```
`poll(None)` on an empty connection blocks; `poll(timeout)` returns
`False` when the timeout elapses. -/
def tubePGet {I : Type} (contents : List I) (timeoutGiven : Bool) :
    TubeGetRes I :=
  match contents with
  | x :: _ => .item x
  | [] => if timeoutGiven then .raises .mpTimeoutError else .blocks

/-! ## Lemmas about `drain` and `roGo` -/

theorem drain_lookup_none {V : Type} (cache : List (Nat × V)) (current : Nat)
    (h : cache.lookup current = none) : drain cache current = ([], current) := by
  rw [drain.eq_def]
  split
  · rename_i v heq
    rw [h] at heq
    cases heq
  · rfl

theorem drain_lookup_some {V : Type} (cache : List (Nat × V)) (current : Nat)
    (v : V) (h : cache.lookup current = some v) :
    drain cache current =
      (v :: (drain cache (current + 1)).1, (drain cache (current + 1)).2) := by
  rw [drain.eq_def]
  split
  · rename_i v' heq
    rw [h] at heq
    injection heq with hv
    subst hv
    rfl
  · rename_i heq
    rw [h] at heq
    cases heq

/-- The inner while loop emits `f` at the consecutive run of cached keys
starting at `current`, and stops at the first uncached index. -/
theorem drain_spec {V : Type} (f : Nat → V) (cache : List (Nat × V))
    (current : Nat) (hc : ∀ k v, cache.lookup k = some v → v = f k) :
    current ≤ (drain cache current).2 ∧
    (drain cache current).1 =
      (List.range' current ((drain cache current).2 - current)).map f ∧
    cache.lookup (drain cache current).2 = none ∧
    (∀ j, current ≤ j → j < (drain cache current).2 →
      (cache.lookup j).isSome = true) := by
  induction current using drain.induct cache with
  | case1 current v heq ih =>
      obtain ⟨ih1, ih2, ih3, ih4⟩ := ih
      rw [drain_lookup_some cache current v heq]
      simp only
      refine ⟨by omega, ?_, ih3, ?_⟩
      · have hrun : (drain cache (current + 1)).2 - current =
            ((drain cache (current + 1)).2 - (current + 1)) + 1 := by omega
        rw [hrun, List.range'_succ, List.map_cons, ← ih2, hc current v heq]
      · intro j hj1 hj2
        rcases Nat.eq_or_lt_of_le hj1 with hj | hj
        · rw [← hj, heq]
          rfl
        · exact ih4 j hj hj2
  | case2 current heq =>
      rw [drain_lookup_none cache current heq]
      simp only
      refine ⟨Nat.le_refl _, by simp, heq, ?_⟩
      intro j hj1 hj2
      omega

theorem lookup_cons_isSome {V : Type} (cache : List (Nat × V)) (i k : Nat)
    (v : V) :
    (((i, v) :: cache).lookup k).isSome = true ↔
      (k = i ∨ (cache.lookup k).isSome = true) := by
  by_cases hk : k = i
  · subst hk
    simp [List.lookup]
  · have hbeq : (k == i) = false := by simp [hk]
    simp [List.lookup, hbeq, hk]

theorem lookup_cons_agrees {V : Type} (f : Nat → V) (cache : List (Nat × V))
    (i : Nat) (v : V) (hv : v = f i)
    (hc : ∀ k w, cache.lookup k = some w → w = f k) :
    ∀ k w, (((i, v) :: cache).lookup k = some w) → w = f k := by
  intro k w h
  by_cases hk : k = i
  · subst hk
    simp [List.lookup] at h
    rw [← h, hv]
  · have hbeq : (k == i) = false := by simp [hk]
    simp only [List.lookup, hbeq] at h
    exact hc k w h

/-- Invariant of the outer `while result := self.get():` loop.  `current`
is the least index not in the cache and everything below it has been
emitted; processing the remaining arrivals extends the emitted prefix to
the least index missing from cache-plus-arrivals. -/
theorem roGo_spec {V : Type} (f : Nat → V) :
    ∀ (arr : List (Nat × V)) (current : Nat) (cache : List (Nat × V)),
    (∀ k v, cache.lookup k = some v → v = f k) →
    (∀ p ∈ arr, p.2 = f p.1) →
    (∀ j, j < current → (cache.lookup j).isSome = true) →
    cache.lookup current = none →
    ∃ (M : Nat) (fc : List (Nat × V)),
      roGo arr current cache = (List.range' current (M - current)).map f ∧
      current ≤ M ∧
      (∀ k, (fc.lookup k).isSome = true ↔
        ((cache.lookup k).isSome = true ∨ k ∈ arr.map Prod.fst)) ∧
      (∀ j, j < M → (fc.lookup j).isSome = true) ∧
      fc.lookup M = none ∧
      (∀ k v, fc.lookup k = some v → v = f k) := by
  intro arr
  induction arr with
  | nil =>
      intro current cache hc _ hdom hcur
      refine ⟨current, cache, by simp [roGo], Nat.le_refl _, ?_, hdom,
        hcur, hc⟩
      intro k
      simp
  | cons p rest ih =>
      rcases p with ⟨i, v⟩
      intro current cache hc hval hdom hcur
      have hv : v = f i := hval (i, v) (List.mem_cons_self _ _)
      have hc' : ∀ k w, (((i, v) :: cache).lookup k = some w) → w = f k :=
        lookup_cons_agrees f cache i v hv hc
      obtain ⟨hd1, hd2, hd3, hd4⟩ := drain_spec f ((i, v) :: cache) current hc'
      set c2 := (drain ((i, v) :: cache) current).2 with hc2
      have hdom' : ∀ j, j < c2 → ((((i, v) :: cache).lookup j)).isSome = true := by
        intro j hj
        by_cases hjc : j < current
        · rw [lookup_cons_isSome]
          exact Or.inr (hdom j hjc)
        · exact hd4 j (by omega) hj
      obtain ⟨M, fc, ih1, ih2, ih3, ih4, ih5, ih6⟩ :=
        ih c2 ((i, v) :: cache) hc'
          (fun q hq => hval q (List.mem_cons_of_mem _ hq)) hdom' hd3
      refine ⟨M, fc, ?_, by omega, ?_, ih4, ih5, ih6⟩
      · show (drain (dictInsert cache i v) current).1 ++
          roGo rest (drain (dictInsert cache i v) current).2
            (dictInsert cache i v) = _
        rw [dictInsert, ← hc2, ih1, hd2, ← List.map_append]
        have hsplit : List.range' current (c2 - current) ++
            List.range' c2 (M - c2) =
            List.range' current (M - current) := by
          have e2 : current + (c2 - current) = c2 := by omega
          have e3 : (M - c2) + (c2 - current) = M - current := by omega
          have e4 := List.range'_append_1 current (c2 - current) (M - c2)
          rw [e2, e3] at e4
          exact e4
        rw [hsplit]
      · intro k
        rw [ih3 k, lookup_cons_isSome]
        simp only [List.map_cons, List.mem_cons]
        tauto

/-! ## Further auxiliary lemmas -/

/-- Relaying the Stop token from relay count `c` through the remaining
workers of an `N`-worker stage produces exactly one downstream Stop
emission. -/
theorem stopRelayTrace_emits {V : Type} (N : Nat) (dR : Bool) (nm : String)
    (doT : V → Except PyExc (Option V)) (i : Int) :
    ∀ (fuel c : Nat), c + fuel = N → c < N →
      allEmits (stopRelayTrace N dR nm doT i c fuel) =
        [(i, PyVal.stopIter)] := by
  intro fuel
  induction fuel with
  | zero =>
      intro c h1 h2
      omega
  | succ fuel ih =>
      intro c h1 h2
      by_cases hc : c + 1 = N
      · simp [stopRelayTrace, dispatch, hc, allEmits]
      · have h3 : c + 1 < N := by omega
        have h4 : (c + 1) + fuel = N := by omega
        have hrec := ih (c + 1) h4 h3
        simp only [stopRelayTrace, dispatch, hc, if_false, if_neg hc]
        simp only [allEmits, List.map_cons, List.flatten_cons] at hrec ⊢
        simpa using hrec

/-- Unfolding `putMany`: successive `Pipeline.put` calls append envelopes
whose indices continue the counter. -/
theorem putMany_go {V : Type} (tasks : List V) : ∀ (p : PutState V),
    (putMany p tasks).taskIndex = p.taskIndex + tasks.length ∧
    (putMany p tasks).rootTube.map (fun it => it.1.1) =
      p.rootTube.map (fun it => it.1.1) ++
        List.range' p.taskIndex tasks.length := by
  induction tasks with
  | nil =>
      intro p
      simp [putMany]
  | cons t rest ih =>
      intro p
      have h := ih (pipelinePut p t)
      simp only [putMany, List.foldl_cons] at h ⊢
      refine ⟨?_, ?_⟩
      · rw [h.1]
        simp [pipelinePut]
        omega
      · rw [h.2]
        simp [pipelinePut, List.range'_succ, List.length_cons]

/-! ## The claims -/

/-- Claim C1: for a pipeline with exactly one leaf stage, if the leaf
delivers `n` pairs `(i, v_i)` whose indices form a permutation of
`{0, …, n-1}`, in any arrival order, followed by end-of-stream, then
`results_ordered()` yields exactly `v_0, …, v_{n-1}` in strictly increasing
index order: each arrival is cached at its index and the loop emits while
the next expected index is cached. -/
theorem results_ordered_yields_in_order {V : Type} (n : Nat) (f : Nat → V)
    (arrivals : List (Nat × V))
    (hperm : (arrivals.map Prod.fst).Perm (List.range n))
    (hval : ∀ p ∈ arrivals, p.2 = f p.1) :
    resultsOrdered arrivals = (List.range n).map f := by
  obtain ⟨M, fc, h1, _h2, h3, h4, h5, _h6⟩ :=
    roGo_spec f arrivals 0 [] (by simp) hval
      (fun j hj => absurd hj (Nat.not_lt_zero j)) (by simp)
  have hmem : ∀ k, k ∈ arrivals.map Prod.fst ↔ k < n := by
    intro k
    rw [hperm.mem_iff, List.mem_range]
  have hdom : ∀ k, (fc.lookup k).isSome = true ↔ k < n := by
    intro k
    rw [h3 k]
    simp [hmem k]
  have hM : M = n := by
    by_contra hne
    rcases Nat.lt_or_ge M n with h | h
    · have hs := (hdom M).2 h
      rw [h5] at hs
      simp at hs
    · rcases Nat.eq_or_lt_of_le h with h' | h'
      · exact hne h'.symm
      · have hs := (hdom n).1 (h4 n h')
        omega
  rw [resultsOrdered, h1, hM, Nat.sub_zero, ← List.range_eq_range']

/-- Witness for C1: a concrete out-of-order arrival sequence. -/
theorem results_ordered_yields_in_order_witness :
    resultsOrdered [(1, 11), (0, 10), (2, 12)] = [10, 11, 12] := by
  have h := results_ordered_yields_in_order 3 (fun j => 10 + j)
    [(1, 11), (0, 10), (2, 12)] (by decide) (by decide)
  simpa using h

/-- Claim C2: a worker fetching `(Stop, count)` increments the count, then
either emits Stop on every output tube and exits (incremented count equals
the stage's worker total) or re-puts the incremented token on this stage's
input tube and exits; relaying the token through the stage's `N` workers
therefore produces exactly one Stop emission, appended once to every output
tube. -/
theorem stop_relay_correct {V : Type} (N : Nat) (dR : Bool) (nm : String)
    (doT : V → Except PyExc (Option V)) (i : Int) (hN : 1 ≤ N) :
    (∀ count,
      dispatch N dR nm doT ((i, .stopIter), count) =
        if count + 1 = N then
          { emits := [(i, .stopIter)], reput := [], closed := false,
            ctl := .exit }
        else
          { emits := [], reput := [((i, .stopIter), count + 1)],
            closed := false, ctl := .exit }) ∧
    allEmits (stopRelayTrace N dR nm doT i 0 N) = [(i, PyVal.stopIter)] ∧
    ∀ outs : List (TubeCts V),
      applyEmits (allEmits (stopRelayTrace N dR nm doT i 0 N)) outs =
        outs.map (fun t => t ++ [((i, PyVal.stopIter), 0)]) := by
  have hrelay := stopRelayTrace_emits N dR nm doT i N 0 (by omega) (by omega)
  refine ⟨?_, hrelay, ?_⟩
  · intro count
    by_cases h : count + 1 = N <;> simp [dispatch, h]
  · intro outs
    rw [hrelay]
    simp [applyEmits, putResultAll]

/-- Witness for C2 at a two-worker stage. -/
theorem stop_relay_correct_witness :
    allEmits (stopRelayTrace 2 false "s"
        (fun _ : Nat => Except.ok none) 0 0 2) =
      [(0, PyVal.stopIter)] :=
  (stop_relay_correct 2 false "s" (fun _ : Nat => Except.ok none) 0
    (by omega)).2.1

/-- Claim C3: when `doTask` raises `e` on task value `v`, the worker emits
on every output tube a `WorkException` wrapping `e` that records the
originating stage name and the offending task, closes its input and output
tubes and exits; and `re_raise` on that `WorkException` raises it carrying
the original exception's traceback. -/
theorem worker_failure_wraps {V : Type} (N : Nat) (dR : Bool) (nm : String)
    (doT : V → Except PyExc (Option V)) (i : Int) (count : Nat) (v : V)
    (e : PyExc) (h : doT v = .error e) :
    dispatch N dR nm doT ((i, .val v), count) =
      { emits := [(i, .workExc (mkWorkException e nm (some v)))],
        reput := [], closed := true, ctl := .exit } ∧
    (mkWorkException e nm (some v) : WExc V).origExc = e ∧
    (mkWorkException e nm (some v) : WExc V).stage = nm ∧
    (mkWorkException e nm (some v) : WExc V).workItem = some v ∧
    reRaise (mkWorkException e nm (some v) : WExc V) =
      (mkWorkException e nm (some v), e.tb) ∧
    ∀ outs : List (TubeCts V),
      applyEmits [(i, PyVal.workExc (mkWorkException e nm (some v)))] outs =
        outs.map (fun t =>
          t ++ [((i, PyVal.workExc (mkWorkException e nm (some v))), 0)]) := by
  refine ⟨by simp [dispatch, h], rfl, rfl, rfl, rfl, ?_⟩
  intro outs
  simp [applyEmits, putResultAll]

/-- Witness for C3: a task on which `doTask` raises. -/
theorem worker_failure_wraps_witness :
    dispatch 1 false "stage1"
        (fun _ : Nat => (Except.error ⟨5, 7⟩ : Except PyExc (Option Nat)))
        ((4, PyVal.val 9), 0) =
      { emits := [(4, PyVal.workExc (mkWorkException ⟨5, 7⟩ "stage1" (some 9)))],
        reput := [], closed := true, ctl := .exit } :=
  (worker_failure_wraps 1 false "stage1"
    (fun _ : Nat => (Except.error ⟨5, 7⟩ : Except PyExc (Option Nat)))
    4 0 9 ⟨5, 7⟩ rfl).1

/-- Claim C8: a fetched `WorkException` payload is forwarded once to every
output tube, after which the worker closes its tubes and exits; a fetched
arbitrary (non-`WorkException`) exception payload is re-injected onto the
stage's input tube as `(payload, count+1)` and then re-raised locally by the
worker. -/
theorem fail_dispatch {V : Type} (N : Nat) (dR : Bool) (nm : String)
    (doT : V → Except PyExc (Option V)) (i : Int) (count : Nat) (w : WExc V)
    (e : PyExc) :
    dispatch N dR nm doT ((i, .workExc w), count) =
      { emits := [(i, .workExc w)], reput := [], closed := true,
        ctl := .exit } ∧
    (∀ outs : List (TubeCts V),
      applyEmits [(i, PyVal.workExc w)] outs =
        outs.map (fun t => t ++ [((i, PyVal.workExc w), 0)])) ∧
    dispatch N dR nm doT ((i, .exc e), count) =
      { emits := [], reput := [((i, .exc e), count + 1)], closed := false,
        ctl := .raised (.exc e) } ∧
    dispatch N dR nm doT ((i, .baseExc e), count) =
      { emits := [], reput := [((i, .baseExc e), count + 1)], closed := false,
        ctl := .raised (.baseExc e) } := by
  refine ⟨rfl, ?_, rfl, rfl⟩
  intro outs
  simp [applyEmits, putResultAll]

/-- Claim C9: `Pipeline.put` assigns the submitted task the current value
of the index counter and increments the counter by exactly one, so `k`
successive calls on a fresh pipeline assign exactly the indices
`0, 1, …, k-1` in order. -/
theorem pipeline_put_indices {V : Type} (tasks : List V) :
    (∀ (p : PutState V) (t : V),
      pipelinePut p t =
        { taskIndex := p.taskIndex + 1,
          rootTube := p.rootTube ++ [((p.taskIndex, t), 0)] }) ∧
    (putMany (putInit V) tasks).taskIndex = tasks.length ∧
    (putMany (putInit V) tasks).rootTube.map (fun it => it.1.1) =
      List.range tasks.length := by
  refine ⟨fun p t => rfl, ?_, ?_⟩
  · have h := (putMany_go tasks (putInit V)).1
    simpa [putInit] using h
  · have h := (putMany_go tasks (putInit V)).2
    simpa [putInit, List.range_eq_range'] using h

/-- Claim C10: `disable_result` suppresses only successful Data results:
the stop-relay, the forwarding of a fetched `WorkException` and the
emission of a `WorkException` when `doTask` raises are identical with the
flag on and off; only the non-`None` value of a successful `doTask` call is
discarded instead of emitted. -/
theorem disable_result_only_data {V : Type} (N : Nat) (nm : String)
    (doT : V → Except PyExc (Option V)) (i : Int) (count : Nat) (w : WExc V)
    (v v' : V) (r : V) (e : PyExc)
    (hOk : doT v = .ok (some r)) (hErr : doT v' = .error e) :
    dispatch N true nm doT ((i, .stopIter), count) =
      dispatch N false nm doT ((i, .stopIter), count) ∧
    dispatch N true nm doT ((i, .workExc w), count) =
      dispatch N false nm doT ((i, .workExc w), count) ∧
    dispatch N true nm doT ((i, .val v'), count) =
      dispatch N false nm doT ((i, .val v'), count) ∧
    dispatch N true nm doT ((i, .val v), count) =
      { emits := [], reput := [], closed := false, ctl := .cont } ∧
    dispatch N false nm doT ((i, .val v), count) =
      { emits := [(i, .val r)], reput := [], closed := false,
        ctl := .cont } := by
  refine ⟨rfl, rfl, ?_, ?_, ?_⟩
  · simp [dispatch, hErr]
  · simp [dispatch, hOk]
  · simp [dispatch, hOk]

/-- Witness for C10: with `disable_result` on, a successful result is
dropped. -/
theorem disable_result_only_data_witness :
    dispatch 2 true "s"
        (fun n : Nat => if n = 0 then Except.ok (some 5)
          else Except.error ⟨1, 2⟩)
        ((0, PyVal.val 0), 0) =
      { emits := [], reput := [], closed := false, ctl := .cont } :=
  (disable_result_only_data 2 "s"
    (fun n : Nat => if n = 0 then Except.ok (some 5)
      else Except.error ⟨1, 2⟩)
    0 0 ⟨⟨1, 2⟩, 2, "s", none⟩ 0 1 5 ⟨1, 2⟩ rfl rfl).2.2.2.1

/-- Claim C7 (the code contradicts it): on an empty `TubeQ`, `get` with a
timeout raises `AttributeError` — evaluating the handler clause
`multiprocessing.Queue.Empty` fails — instead of the `TimeoutError` the
handler body intends; `TubeP.get` does raise
`multiprocessing.TimeoutError`; neither tube signals end-of-stream itself
(an empty tube blocks or raises, an item passes through unchanged). -/
theorem tubeQ_timeout_attribute_error :
    tubeQGet ([] : List Nat) true = .raises .attributeError ∧
    (TubeGetRes.raises PyRaise.attributeError : TubeGetRes Nat) ≠
      TubeGetRes.raises PyRaise.timeoutError ∧
    tubePGet ([] : List Nat) true = .raises .mpTimeoutError ∧
    tubeQGet ([] : List Nat) false = .blocks ∧
    tubeQGet [7] true = .item 7 ∧
    tubePGet [7] true = .item 7 := by
  refine ⟨rfl, by decide, rfl, rfl, rfl, rfl⟩

/-- Claim C5 counterexample: with two leaf stages, the call expression
`results_ordered()` raises nothing — it returns a generator — and the
multiple-leaves `ValueError` surfaces only at the generator's first
iteration. -/
theorem results_ordered_call_is_lazy :
    resultsOrderedCallEvent 2 = .returnsGenerator ∧
    resultsOrderedCallEvent 2 ≠ .raisesValueError ∧
    resultsOrderedFirstNext 2 =
      .error "Pipeline must have only one output stage." := by
  refine ⟨rfl, by decide, by simp [resultsOrderedFirstNext]⟩

/-- Claim C5 amended: calling `results_ordered()` on a pipeline with more
than one leaf stage returns a generator without raising; the
multiple-leaves `ValueError` is raised at the first iteration of that
generator, before any result is yielded. -/
theorem results_ordered_multi_leaf_error (numLeaves : Nat)
    (h : numLeaves ≠ 1) :
    resultsOrderedCallEvent numLeaves = .returnsGenerator ∧
    resultsOrderedFirstNext numLeaves =
      .error "Pipeline must have only one output stage." :=
  ⟨rfl, by simp [resultsOrderedFirstNext, h]⟩

/-- Witness for the amended C5 at two leaves. -/
theorem results_ordered_multi_leaf_error_witness :
    resultsOrderedFirstNext 2 =
      .error "Pipeline must have only one output stage." :=
  (results_ordered_multi_leaf_error 2 (by decide)).2

/-- Claim C4 counterexample: at a concrete pipeline state whose single
leaf holds a `WorkException`, `Pipeline.get` terminates that leaf's pool
and re-raises the exception, but the pipeline's root tube is exactly what
it was — empty — so no `WorkException` was re-injected into the root. -/
theorem pipeline_get_no_reinjection :
    (pipelineGet
      ⟨([] : TubeCts Nat),
        [⟨[[((3, PyVal.workExc (mkWorkException ⟨1, 42⟩ "stage1" (some 5))),
          0)]], false, false⟩]⟩).1.rootTube = [] ∧
    (pipelineGet
      ⟨([] : TubeCts Nat),
        [⟨[[((3, PyVal.workExc (mkWorkException ⟨1, 42⟩ "stage1" (some 5))),
          0)]], false, false⟩]⟩).2 =
      .raisedWork (mkWorkException ⟨1, 42⟩ "stage1" (some 5)) 42 ∧
    (pipelineGet
      ⟨([] : TubeCts Nat),
        [⟨[[((3, PyVal.workExc (mkWorkException ⟨1, 42⟩ "stage1" (some 5))),
          0)]], false, false⟩]⟩).1.stages = [⟨[[]], true, false⟩] := by
  decide

/-- Claim C4 amended: when `Pipeline.get` observes a `WorkException` at a
leaf stage it terminates that leaf stage's worker pool and re-raises the
`WorkException` at the caller carrying the original exception's traceback;
nothing is re-injected into the pipeline's root, whose tube is unchanged. -/
theorem pipeline_get_workexc_reraise {V : Type} (root : TubeCts V)
    (e : PyExc) (nm : String) (itm : Option V) (i : Int) (c : Nat)
    (tl : TubeCts V) (rest : List (TubeCts V)) (term0 join0 : Bool) :
    pipelineGet
      ⟨root,
        [⟨(((i, .workExc (mkWorkException e nm itm)), c) :: tl) :: rest,
          term0, join0⟩]⟩ =
      (⟨root, [⟨tl :: rest, true, join0⟩]⟩,
        .raisedWork (mkWorkException e nm itm) e.tb) := by
  simp [pipelineGet, pipelineGetGo, stageGet, stageGetGo, reRaise,
    mkWorkException]

/-- Claim C6 counterexample: a `KeyboardInterrupt` payload at the leaf is
a `BaseException` but not an `Exception`, so `Stage.get` falls through all
its `isinstance` tests and `Pipeline.get` returns the token as an ordinary
`(index, value)` result pair — not none (and nothing prints a notice). -/
theorem cancel_returned_as_pair :
    (pipelineGet
      ⟨([] : TubeCts Nat),
        [⟨[[((-1, PyVal.baseExc ⟨9, 3⟩), 0)]], false, false⟩]⟩).2 =
      .got (-1) (PyVal.baseExc ⟨9, 3⟩) ∧
    (pipelineGet
      ⟨([] : TubeCts Nat),
        [⟨[[((-1, PyVal.baseExc ⟨9, 3⟩), 0)]], false, false⟩]⟩).2 ≠
      PGet.none := by
  decide

/-- Claim C6 amended: when a Cancel token — the `KeyboardInterrupt`
payload the worker forwards with index `-1` — reaches a leaf,
`Pipeline.get` returns it to the caller as an ordinary `(index, value)`
result pair; it neither returns none nor raises, and the worker pool is
untouched. -/
theorem cancel_token_ordinary_result {V : Type} (root : TubeCts V)
    (e : PyExc) (i : Int) (c : Nat) (tl : TubeCts V)
    (rest : List (TubeCts V)) (term0 join0 : Bool) :
    pipelineGet
      ⟨root, [⟨(((i, .baseExc e), c) :: tl) :: rest, term0, join0⟩]⟩ =
      (⟨root, [⟨tl :: rest, term0, join0⟩]⟩, .got i (.baseExc e)) ∧
    (PGet.got i (PyVal.baseExc e) : PGet V) ≠ PGet.none := by
  refine ⟨by simp [pipelineGet, pipelineGetGo, stageGet, stageGetGo],
    fun h => PGet.noConfusion h⟩

end MPipe
